import Mathlib

/-
Verification of the GitHub Repository Batch Checker (github_checker.py).

The program is embedded shallowly:
* strings are lists of characters (`Str`);
* the two regular expressions of `extract_repo_info` are embedded as
  executable matching functions whose backtracking behaviour follows
  Python's `re.search` on those exact patterns;
* the HTTP layer is a parameter `http : Str → HttpOutcome` mapping a
  request URL to either a response (status code plus the JSON fields the
  program reads) or a request-level failure carrying the exception text
  (`requests.exceptions.RequestException`);
* the completion order of `ThreadPoolExecutor`/`as_completed` in
  `check_repos_batch` is modelled by an explicit permutation `order` of
  the input list; `time.sleep` has no observable effect in the model;
* `main`'s argument/file handling is modelled by `main_outcome` over an
  abstract file system `fs : Str → Option (List Str)`, where `none`
  models `FileNotFoundError` on `open`.
-/

abbrev Str := List Char

/-- The literal `github.com/` that both regular expressions begin with. -/
def ghMarker : Str := ['g', 'i', 't', 'h', 'u', 'b', '.', 'c', 'o', 'm', '/']

/-- Python's `repo.rstrip('.git')`: removes from the right every character
belonging to the set `{'.', 'g', 'i', 't'}` (not the suffix `".git"`). -/
def rstripGit (l : Str) : Str :=
  (l.reverse.dropWhile (fun c => c == '.' || c == 'g' || c == 'i' || c == 't')).reverse

/-- Python's substring test `needle in hay`. -/
def containsStr (needle : Str) : Str → Bool
  | [] => needle.isEmpty
  | c :: cs => needle.isPrefixOf (c :: cs) || containsStr needle cs

/-- Matching of `github\.com/([^/]+)/([^/]+?)(?:\.git)?/?$` at a fixed
position, applied to the text following the literal `github.com/`.
Group 1 is greedy and slash-free; the end-anchored tail admits exactly a
non-empty slash-free group 2, an optional literal `.git` and an optional
final `/`; the lazy group 2 therefore drops one trailing `.git` whenever
doing so leaves the group non-empty. -/
def match1 (rest : Str) : Option (Str × Str) :=
  let a := rest.takeWhile (fun c => c != '/')
  if a.isEmpty then none
  else
    match rest.dropWhile (fun c => c != '/') with
    | '/' :: t =>
      let u := if t.getLast? = some '/' then t.dropLast else t
      if u.isEmpty || u.any (fun c => c == '/') then none
      else
        let b := if 5 ≤ u.length && decide (u.drop (u.length - 4) = ['.', 'g', 'i', 't'])
                 then u.take (u.length - 4) else u
        some (a, b)
    | _ => none

/-- Matching of `github\.com/([^/]+)/([^/]+)` at a fixed position, applied
to the text following the literal `github.com/`: two greedy, non-empty,
slash-free groups separated by `/`. -/
def match2 (rest : Str) : Option (Str × Str) :=
  let a := rest.takeWhile (fun c => c != '/')
  if a.isEmpty then none
  else
    match rest.dropWhile (fun c => c != '/') with
    | '/' :: r2 =>
      let b := r2.takeWhile (fun c => c != '/')
      if b.isEmpty then none else some (a, b)
    | _ => none

/-- One attempt of `re.search` at the current position: the literal
`github.com/` must start here, and the rest is handed to the pattern body. -/
def tryAt (m : Str → Option (Str × Str)) (l : Str) : Option (Str × Str) :=
  if ghMarker.isPrefixOf l then m (l.drop 11) else none

/-- `re.search`: try the pattern at every position, left to right, and
return the first match. -/
def searchWith (m : Str → Option (Str × Str)) : Str → Option (Str × Str)
  | [] => none
  | c :: cs =>
    match tryAt m (c :: cs) with
    | some g => some g
    | none => searchWith m cs

def search1 (url : Str) : Option (Str × Str) := searchWith match1 url

def search2 (url : Str) : Option (Str × Str) := searchWith match2 url

/-- `GitHubRepoChecker.extract_repo_info`: try the end-anchored pattern
first, then the loose one, and post-process the repo group with
`rstrip('.git')`. `none` models the Python return value `(None, None)`. -/
def extract_repo_info (url : Str) : Option (Str × Str) :=
  match search1 url with
  | some (o, r) => some (o, rstripGit r)
  | none =>
    match search2 url with
    | some (o, r) => some (o, rstripGit r)
    | none => none

/-- The fields of the GitHub JSON body that `check_repo` reads via
`repo_data.get(...)`. An absent key is `none`; the field `priv` embeds the
JSON key `private` (a Lean keyword). -/
structure RepoJson where
  priv : Option Bool
  archived : Option Bool
  stargazers_count : Option Nat
deriving DecidableEq

/-- Outcome of `self.session.get(api_url, timeout=10)`: either an HTTP
response (status code plus parsed JSON body) or a raised
`requests.exceptions.RequestException` carrying its message `str(e)`. -/
inductive HttpOutcome where
  | response (code : Nat) (body : RepoJson)
  | failure (msg : Str)
deriving DecidableEq

/-- The result dictionary built by `check_repo`. The three optional keys
are present exactly in the `EXISTS` case. -/
structure ProbeResult where
  url : Str
  status : Str
  message : Str
  priv : Option Bool
  archived : Option Bool
  stars : Option Nat
deriving DecidableEq

/-- `f'https://api.github.com/repos/{owner}/{repo}'`. -/
def apiUrl (owner repo : Str) : Str :=
  "https://api.github.com/repos/".data ++ owner ++ "/".data ++ repo

/-- The result for an unparseable URL. -/
def invalidResult (url : Str) : ProbeResult :=
  { url := url, status := "INVALID_URL".data,
    message := "Could not parse GitHub URL".data,
    priv := none, archived := none, stars := none }

/-- `GitHubRepoChecker.check_repo`: parse, then (if the owner and repo are
truthy) issue one GET and classify the outcome. `http` maps the request
URL to its outcome. -/
def check_repo (http : Str → HttpOutcome) (url : Str) : ProbeResult :=
  match extract_repo_info url with
  | none => invalidResult url
  | some (owner, repo) =>
    if owner.isEmpty || repo.isEmpty then invalidResult url
    else
      match http (apiUrl owner repo) with
      | HttpOutcome.response code body =>
        if code = 200 then
          { url := url, status := "EXISTS".data,
            message := "✓ ".data ++ owner ++ "/".data ++ repo,
            priv := some (body.priv.getD false),
            archived := some (body.archived.getD false),
            stars := some (body.stargazers_count.getD 0) }
        else if code = 404 then
          { url := url, status := "NOT_FOUND".data,
            message := "✗ ".data ++ owner ++ "/".data ++ repo ++
              " - Repository not found".data,
            priv := none, archived := none, stars := none }
        else if code = 403 then
          { url := url, status := "FORBIDDEN".data,
            message := "⚠ ".data ++ owner ++ "/".data ++ repo ++
              " - Access denied (private or rate limited)".data,
            priv := none, archived := none, stars := none }
        else
          { url := url, status := "ERROR".data,
            message := "? ".data ++ owner ++ "/".data ++ repo ++
              " - HTTP ".data ++ Nat.toDigits 10 code,
            priv := none, archived := none, stars := none }
      | HttpOutcome.failure msg =>
        { url := url, status := "ERROR".data,
          message := "✗ ".data ++ owner ++ "/".data ++ repo ++
            " - Network error: ".data ++ msg,
          priv := none, archived := none, stars := none }

/-- The list of request URLs `check_repo` sends: empty when parsing fails
(the `session.get` call is inside the branch where both groups are
truthy), a single GET otherwise. -/
def check_repo_requests (url : Str) : List Str :=
  match extract_repo_info url with
  | none => []
  | some (owner, repo) =>
    if owner.isEmpty || repo.isEmpty then [] else [apiUrl owner repo]

/-- `not owner or not repo`: the Parser returned an absent owner or repo
(Python `None` or the empty string are both falsy). -/
def parse_failed (url : Str) : Bool :=
  match extract_repo_info url with
  | none => true
  | some (owner, repo) => owner.isEmpty || repo.isEmpty

/-- `GitHubRepoChecker.check_repos_batch`: one `check_repo` per URL; the
nondeterministic `as_completed` completion order is the parameter `order`
(a permutation of `urls`). Returns the results in completion order paired
with the list of progress-callback invocations
`(i + 1, len(urls), result)`. The `time.sleep(0.1)` throttle has no
observable effect in this model. -/
def check_repos_batch (http : Str → HttpOutcome) (urls order : List Str) :
    List ProbeResult × List (Nat × Nat × ProbeResult) :=
  let results := order.map (check_repo http)
  (results, results.enum.map (fun p => (p.1 + 1, urls.length, p.2)))

/-- One step of `status_counts[status] = status_counts.get(status, 0) + 1`
on an insertion-ordered dictionary: update the first matching key in
place, or append a fresh key with count 1. -/
def bump (counts : List (Str × Nat)) (s : Str) : List (Str × Nat) :=
  match counts with
  | [] => [(s, 1)]
  | (k, n) :: rest => if k = s then (k, n + 1) :: rest else (k, n) :: bump rest s

/-- Dictionary lookup with default 0, `status_counts.get(s, 0)`. -/
def lookupCount (counts : List (Str × Nat)) (s : Str) : Nat :=
  match counts with
  | [] => 0
  | (k, n) :: rest => if k = s then n else lookupCount rest s

/-- The aggregation loop of `main` over the results, carrying
`status_counts` and `dead_links`. -/
def aggregateAux : List ProbeResult → List (Str × Nat) → List Str →
    List (Str × Nat) × List Str
  | [], counts, dead => (counts, dead)
  | r :: rs, counts, dead =>
    aggregateAux rs (bump counts r.status)
      (if r.status = "NOT_FOUND".data ∨ r.status = "ERROR".data
       then dead ++ [r.url] else dead)

/-- The Report Aggregator of `main` (lines 148-156): per-status counts in
first-occurrence order, and the dead-link list in production order. -/
def aggregate (results : List ProbeResult) : List (Str × Nat) × List Str :=
  aggregateAux results [] []

/-- Python's `line.strip()` (whitespace on both ends). -/
def pyStrip (l : Str) : Str :=
  ((l.dropWhile Char.isWhitespace).reverse.dropWhile Char.isWhitespace).reverse

/-- The load-time filter of `main`: `line.strip() and 'github.com' in line`. -/
def qualifying (line : Str) : Bool :=
  !(pyStrip line).isEmpty && containsStr "github.com".data line

/-- `[line.strip() for line in f if line.strip() and 'github.com' in line]`. -/
def load_urls (lines : List Str) : List Str :=
  (lines.filter qualifying).map pyStrip

/-- The four ways the front half of `main` can go. -/
inductive MainOutcome where
  | usageError
  | fileError
  | noUrls
  | run (urls : List Str)
deriving DecidableEq

/-- The argument/file handling of `main` (lines 117-136): `sys.argv` is
`argv` (program name included) and `fs` maps a filename to its lines,
`none` modelling `FileNotFoundError` on `open`. -/
def main_outcome (argv : List Str) (fs : Str → Option (List Str)) : MainOutcome :=
  if argv.length < 2 then MainOutcome.usageError
  else
    match fs (argv.getD 1 []) with
    | none => MainOutcome.fileError
    | some lines =>
      let urls := load_urls lines
      if urls.isEmpty then MainOutcome.noUrls else MainOutcome.run urls

/-- The process exit code decided by `main_outcome`: the three error
outcomes call `sys.exit(1)`; a run proceeds. -/
def outcome_exit : MainOutcome → Option Nat
  | MainOutcome.usageError => some 1
  | MainOutcome.fileError => some 1
  | MainOutcome.noUrls => some 1
  | MainOutcome.run _ => none

/-- `needle` occurs as a contiguous substring of `hay`. -/
def Mentions (needle hay : Str) : Prop := ∃ s t, hay = s ++ needle ++ t

/-- `r.status in ['NOT_FOUND', 'ERROR']`. -/
def isDead (r : ProbeResult) : Bool :=
  r.status == "NOT_FOUND".data || r.status == "ERROR".data

/-- A constant mocked HTTP layer answering 404 everywhere. -/
def demoHttp404 : Str → HttpOutcome :=
  fun _ => HttpOutcome.response 404 ⟨none, none, none⟩

/-- Two parseable input URLs, both of which probe as dead links. -/
def demoUrls : List Str := ["github.com/a/b".data, "github.com/c/d".data]

theorem takeWhile_slashfree (l r : Str) (h : ∀ c ∈ l, c ≠ '/') :
    (l ++ '/' :: r).takeWhile (fun c => c != '/') = l ∧
    (l ++ '/' :: r).dropWhile (fun c => c != '/') = '/' :: r := by
  induction l with
  | nil => simp [List.takeWhile_cons, List.dropWhile_cons]
  | cons c cs ih =>
    have hc : c ≠ '/' := h c (List.mem_cons_self c cs)
    have ih2 := ih (fun x hx => h x (List.mem_cons_of_mem c hx))
    simp [List.takeWhile_cons, List.dropWhile_cons, hc, ih2.1, ih2.2]

theorem isPrefixOf_self_append (l r : Str) : l.isPrefixOf (l ++ r) = true := by
  induction l with
  | nil => simp [List.isPrefixOf]
  | cons c cs ih => simp [List.isPrefixOf, ih]

theorem dropLast_append_left (l r : Str) (h : r ≠ []) :
    (l ++ r).dropLast = l ++ r.dropLast := by
  induction l with
  | nil => simp
  | cons c cs ih =>
    cases hx : cs ++ r with
    | nil =>
      rcases List.append_eq_nil.mp hx with ⟨-, h2⟩
      exact absurd h2 h
    | cons x xs =>
      simp only [List.cons_append, hx, List.dropLast_cons₂]
      rw [← hx, ih]

theorem isEmpty_false_of_ne_nil (l : Str) (h : l ≠ []) : l.isEmpty = false := by
  cases l with
  | nil => exact absurd rfl h
  | cons _ _ => rfl

theorem match2_at_shape (seg1 seg2 post : Str) (h1 : seg1 ≠ []) (h2 : seg2 ≠ [])
    (hs1 : ∀ c ∈ seg1, c ≠ '/') (hs2 : ∀ c ∈ seg2, c ≠ '/') :
    (match2 (seg1 ++ '/' :: (seg2 ++ post))).isSome = true := by
  have hne := isEmpty_false_of_ne_nil seg1 h1
  cases seg2 with
  | nil => exact absurd rfl h2
  | cons d ds =>
    have hd : (d != '/') = true := by
      simpa using hs2 d (List.mem_cons_self d ds)
    have htw := takeWhile_slashfree seg1 (d :: (ds ++ post)) hs1
    rw [match2]
    simp only [List.cons_append]
    rw [htw.1, htw.2, hne]
    simp [hd]

theorem match2_at_exact (seg1 seg2 rest0 : Str) (h1 : seg1 ≠ []) (h2 : seg2 ≠ [])
    (hs1 : ∀ c ∈ seg1, c ≠ '/') (hs2 : ∀ c ∈ seg2, c ≠ '/') :
    match2 (seg1 ++ '/' :: (seg2 ++ '/' :: rest0)) = some (seg1, seg2) := by
  have htw1 := takeWhile_slashfree seg1 (seg2 ++ '/' :: rest0) hs1
  have htw2 := takeWhile_slashfree seg2 rest0 hs2
  have hne := isEmpty_false_of_ne_nil seg1 h1
  have hne2 := isEmpty_false_of_ne_nil seg2 h2
  rw [match2]
  simp only [htw1.1, htw1.2, htw2.1, hne, hne2, Bool.false_eq_true, if_false]

theorem match1_none_inner_slash (seg1 seg2 rest0 : Str) (h0 : rest0 ≠ [])
    (hs1 : ∀ c ∈ seg1, c ≠ '/') :
    match1 (seg1 ++ '/' :: (seg2 ++ '/' :: rest0)) = none := by
  have htw := takeWhile_slashfree seg1 (seg2 ++ '/' :: rest0) hs1
  set t : Str := seg2 ++ '/' :: rest0 with ht
  have hslash : ∀ u : Str, '/' ∈ u → u.any (fun c => c == '/') = true := by
    intro u hu
    exact List.any_eq_true.mpr ⟨'/', hu, by simp⟩
  have hmem : '/' ∈ (if t.getLast? = some '/' then t.dropLast else t) := by
    by_cases hl : t.getLast? = some '/'
    · rw [if_pos hl, ht]
      cases rest0 with
      | nil => exact absurd rfl h0
      | cons y ys =>
        rw [dropLast_append_left seg2 ('/' :: y :: ys) (by simp)]
        simp [List.dropLast_cons₂]
    · rw [if_neg hl, ht]
      simp
  simp only [match1, htw.1, htw.2]
  simp only [hslash _ hmem, Bool.or_true, if_true]
  cases seg1 with
  | nil => rfl
  | cons _ _ => rfl

theorem searchWith_not_contains (m : Str → Option (Str × Str)) (l : Str)
    (h : containsStr ghMarker l = false) : searchWith m l = none := by
  induction l with
  | nil => rfl
  | cons c cs ih =>
    have hparts := Bool.or_eq_false_iff.mp (by simpa [containsStr] using h)
    simp [searchWith, tryAt, hparts.1, ih hparts.2]

theorem searchWith_cons_unfold (m : Str → Option (Str × Str)) (c : Char) (cs : Str) :
    searchWith m (c :: cs) =
      match tryAt m (c :: cs) with
      | some g => some g
      | none => searchWith m cs := by
  rw [searchWith.eq_def]

theorem searchWith_cons_some (m : Str → Option (Str × Str)) (c : Char) (cs : Str)
    (g : Str × Str) (h : tryAt m (c :: cs) = some g) :
    searchWith m (c :: cs) = some g := by
  rw [searchWith_cons_unfold, h]

theorem searchWith_isSome_append (m : Str → Option (Str × Str)) (pre rest : Str)
    (h : (m rest).isSome = true) :
    (searchWith m (pre ++ ghMarker ++ rest)).isSome = true := by
  induction pre with
  | nil =>
    obtain ⟨g, hg⟩ := Option.isSome_iff_exists.mp h
    have hp : ghMarker.isPrefixOf (ghMarker ++ rest) = true :=
      isPrefixOf_self_append ghMarker rest
    have hd : (ghMarker ++ rest).drop 11 = rest := by simp [ghMarker]
    have htry : tryAt m (ghMarker ++ rest) = some g := by
      unfold tryAt
      rw [if_pos hp, hd, hg]
    rw [List.nil_append]
    cases hgm : ghMarker ++ rest with
    | nil => simp [ghMarker] at hgm
    | cons c cs =>
      have htry2 : tryAt m (c :: cs) = some g := by rw [← hgm]; exact htry
      rw [searchWith_cons_some m c cs g htry2]
      rfl
  | cons c pre' ih =>
    simp only [List.cons_append]
    cases ht : tryAt m (c :: (pre' ++ ghMarker ++ rest)) with
    | some g =>
      rw [searchWith_cons_unfold, ht]
      rfl
    | none =>
      rw [searchWith_cons_unfold, ht]
      exact ih

theorem bump_sum (counts : List (Str × Nat)) (s : Str) :
    ((bump counts s).map Prod.snd).sum = (counts.map Prod.snd).sum + 1 := by
  induction counts with
  | nil => simp [bump]
  | cons p rest ih =>
    obtain ⟨k, n⟩ := p
    by_cases hk : k = s
    · simp [bump, hk]
      omega
    · simp [bump, hk, ih]
      omega

theorem bump_keys (counts : List (Str × Nat)) (s : Str) (p : Str × Nat)
    (h : p ∈ bump counts s) : p.1 = s ∨ ∃ q ∈ counts, p.1 = q.1 := by
  induction counts with
  | nil =>
    simp [bump] at h
    simp [h]
  | cons q rest ih =>
    obtain ⟨k, n⟩ := q
    by_cases hk : k = s
    · simp only [bump, hk, if_true] at h
      rcases List.mem_cons.mp h with h1 | h2
      · subst h1
        left
        exact hk ▸ rfl
      · right
        exact ⟨p, List.mem_cons_of_mem _ h2, rfl⟩
    · simp only [bump, hk, if_false] at h
      rcases List.mem_cons.mp h with h1 | h2
      · subst h1
        right
        exact ⟨(k, n), List.mem_cons_self _ _, rfl⟩
      · rcases ih h2 with h3 | ⟨q, hq, h4⟩
        · exact Or.inl h3
        · exact Or.inr ⟨q, List.mem_cons_of_mem _ hq, h4⟩

theorem bump_lookup (counts : List (Str × Nat)) (s t : Str) :
    lookupCount (bump counts s) t =
      lookupCount counts t + (if s = t then 1 else 0) := by
  induction counts with
  | nil =>
    by_cases hst : s = t
    · simp [bump, lookupCount, hst]
    · have : t ≠ s := fun h => hst h.symm
      simp [bump, lookupCount, hst, this]
  | cons p rest ih =>
    obtain ⟨k, n⟩ := p
    by_cases hk : k = s
    · subst hk
      by_cases hkt : k = t
      · simp [bump, lookupCount, hkt]
      · simp [bump, lookupCount, hkt]
    · by_cases hkt : k = t
      · subst hkt
        have : ¬ s = k := fun h => hk h.symm
        simp [bump, lookupCount, hk, this]
      · simp [bump, lookupCount, hk, hkt, ih]

theorem aggregateAux_dead (rs : List ProbeResult) (counts : List (Str × Nat))
    (dead : List Str) :
    (aggregateAux rs counts dead).2 =
      dead ++ (rs.filter isDead).map (fun r => r.url) := by
  induction rs generalizing counts dead with
  | nil => simp [aggregateAux]
  | cons r rs ih =>
    have hif : (if r.status = "NOT_FOUND".data ∨ r.status = "ERROR".data
        then dead ++ [r.url] else dead) =
        (if isDead r then dead ++ [r.url] else dead) := by
      by_cases hr : r.status = "NOT_FOUND".data ∨ r.status = "ERROR".data
      · have : isDead r = true := by
          rcases hr with h | h
          · simp [isDead, h]
          · simp [isDead, h]
        simp [hr, this]
      · have : isDead r = false := by
          simp only [isDead, Bool.or_eq_false_iff, beq_eq_false_iff_ne]
          exact ⟨fun h => hr (Or.inl h), fun h => hr (Or.inr h)⟩
        simp [hr, this]
    rw [aggregateAux, hif]
    by_cases hd : isDead r
    · rw [if_pos hd, ih]
      simp [List.filter_cons, hd]
    · rw [if_neg hd, ih]
      simp only [Bool.not_eq_true] at hd
      simp [List.filter_cons, hd]

theorem aggregateAux_sum (rs : List ProbeResult) (counts : List (Str × Nat))
    (dead : List Str) :
    (((aggregateAux rs counts dead).1.map Prod.snd)).sum =
      (counts.map Prod.snd).sum + rs.length := by
  induction rs generalizing counts dead with
  | nil => simp [aggregateAux]
  | cons r rs ih =>
    rw [aggregateAux, ih, bump_sum]
    simp
    omega

theorem aggregateAux_keys (rs : List ProbeResult) (counts : List (Str × Nat))
    (dead : List Str) (p : Str × Nat) (h : p ∈ (aggregateAux rs counts dead).1) :
    (∃ q ∈ counts, p.1 = q.1) ∨ ∃ r ∈ rs, p.1 = r.status := by
  induction rs generalizing counts dead with
  | nil =>
    simp only [aggregateAux] at h
    exact Or.inl ⟨p, h, rfl⟩
  | cons r rs ih =>
    rw [aggregateAux] at h
    rcases ih _ _ h with ⟨q, hq, hpq⟩ | ⟨r2, hr2, hpr⟩
    · rcases bump_keys counts r.status q hq with h1 | ⟨q2, hq2, h2⟩
      · exact Or.inr ⟨r, List.mem_cons_self _ _, hpq ▸ h1⟩
      · exact Or.inl ⟨q2, hq2, hpq.trans h2⟩
    · exact Or.inr ⟨r2, List.mem_cons_of_mem _ hr2, hpr⟩

theorem aggregateAux_lookup (rs : List ProbeResult) (counts : List (Str × Nat))
    (dead : List Str) (s : Str) :
    lookupCount (aggregateAux rs counts dead).1 s =
      lookupCount counts s + rs.countP (fun r => r.status == s) := by
  induction rs generalizing counts dead with
  | nil => simp [aggregateAux]
  | cons r rs ih =>
    rw [aggregateAux, ih, bump_lookup, List.countP_cons]
    by_cases hr : r.status = s
    · simp [hr]
      omega
    · have : (r.status == s) = false := beq_eq_false_iff_ne.mpr hr
      simp [hr, this]

theorem enumFrom_map_fst_succ (l : List ProbeResult) (n : Nat) :
    (List.enumFrom n l).map (fun p => p.1 + 1) = List.range' (n + 1) l.length := by
  induction l generalizing n with
  | nil => simp
  | cons r rs ih => simp [List.enumFrom, List.range'_succ, ih]

/-- Claim C2 (code bug evidence): on the URL `github.com/a/digit`, which has
the exact shape `github.com/<owner>/<repo>` with no `.git` suffix, the
Parser returns the repo name `d` instead of `digit`: `rstrip('.git')`
removes the trailing characters `t`, `i`, `g`, `i` because it strips the
character set `{'.', 'g', 'i', 't'}`, not the suffix `".git"`. -/
theorem rstrip_truncates_repo :
    extract_repo_info "github.com/a/digit".data = some ("a".data, "d".data) ∧
    "d".data ≠ "digit".data := by
  constructor
  · decide
  · decide

/-- Claim C3: every probe produces exactly one `ProbeResult` whose status
is one of the five `StatusKind` values, and when the Parser returns an
absent owner or repo the result is `INVALID_URL`, the request list is
empty, and the result does not depend on the HTTP layer at all (no
network call is made). -/
theorem probe_status_closed (http : Str → HttpOutcome) (url : Str) :
    (check_repo http url).status ∈
      ["INVALID_URL".data, "EXISTS".data, "NOT_FOUND".data,
       "FORBIDDEN".data, "ERROR".data] ∧
    (parse_failed url = true →
      check_repo http url = invalidResult url ∧
      check_repo_requests url = [] ∧
      ∀ http2 : Str → HttpOutcome, check_repo http2 url = check_repo http url) := by
  constructor
  · cases hx : extract_repo_info url with
    | none => simp [check_repo, hx, invalidResult]
    | some pair =>
      obtain ⟨o, r⟩ := pair
      by_cases he : o.isEmpty || r.isEmpty
      · simp [check_repo, hx, he, invalidResult]
      · cases hh : http (apiUrl o r) with
        | response code body =>
          by_cases h200 : code = 200
          · simp [check_repo, hx, he, hh, h200]
          · by_cases h404 : code = 404
            · simp [check_repo, hx, he, hh, h200, h404]
            · by_cases h403 : code = 403
              · simp [check_repo, hx, he, hh, h200, h404, h403]
              · simp [check_repo, hx, he, hh, h200, h404, h403]
        | failure msg => simp [check_repo, hx, he, hh]
  · intro hpf
    cases hx : extract_repo_info url with
    | none =>
      refine ⟨by simp [check_repo, hx], by simp [check_repo_requests, hx], ?_⟩
      intro http2
      simp [check_repo, hx]
    | some pair =>
      obtain ⟨o, r⟩ := pair
      have he : (o.isEmpty || r.isEmpty) = true := by
        have := hpf
        rw [parse_failed, hx] at this
        exact this
      refine ⟨by simp [check_repo, hx, he], by simp [check_repo_requests, hx, he], ?_⟩
      intro http2
      simp [check_repo, hx, he]

/-- Claim C1: when parsing succeeds (truthy owner and repo), the Prober
classifies the response from the repository endpoint: 200 gives `EXISTS`
with `private`/`archived`/`stargazers_count` read from the body and
defaulting to `false`/`false`/`0`; 404 gives `NOT_FOUND`; 403 gives
`FORBIDDEN` (never `NOT_FOUND`) with a message mentioning the private and
rate-limited possibilities; any other status gives `ERROR` with the
decimal status code in the message; a request failure gives `ERROR` with
the failure text in the message. -/
theorem prober_classification (http : Str → HttpOutcome) (url o r : Str)
    (hx : extract_repo_info url = some (o, r)) (ho : o ≠ []) (hr : r ≠ []) :
    (∀ body : RepoJson, http (apiUrl o r) = HttpOutcome.response 200 body →
      check_repo http url =
        { url := url, status := "EXISTS".data,
          message := "✓ ".data ++ o ++ "/".data ++ r,
          priv := some (body.priv.getD false),
          archived := some (body.archived.getD false),
          stars := some (body.stargazers_count.getD 0) }) ∧
    (∀ body : RepoJson, http (apiUrl o r) = HttpOutcome.response 404 body →
      (check_repo http url).status = "NOT_FOUND".data) ∧
    (∀ body : RepoJson, http (apiUrl o r) = HttpOutcome.response 403 body →
      (check_repo http url).status = "FORBIDDEN".data ∧
      (check_repo http url).status ≠ "NOT_FOUND".data ∧
      Mentions "private".data (check_repo http url).message ∧
      Mentions "rate limit".data (check_repo http url).message) ∧
    (∀ (code : Nat) (body : RepoJson),
      http (apiUrl o r) = HttpOutcome.response code body →
      code ≠ 200 → code ≠ 404 → code ≠ 403 →
      (check_repo http url).status = "ERROR".data ∧
      Mentions (Nat.toDigits 10 code) (check_repo http url).message) ∧
    (∀ msg : Str, http (apiUrl o r) = HttpOutcome.failure msg →
      (check_repo http url).status = "ERROR".data ∧
      Mentions msg (check_repo http url).message) := by
  have hoe := isEmpty_false_of_ne_nil o ho
  have hre := isEmpty_false_of_ne_nil r hr
  refine ⟨?_, ?_, ?_, ?_, ?_⟩
  · intro body hresp
    simp [check_repo, hx, hoe, hre, hresp]
  · intro body hresp
    simp [check_repo, hx, hoe, hre, hresp]
  · intro body hresp
    have hmsg : (check_repo http url).message =
        "⚠ ".data ++ o ++ "/".data ++ r ++
          " - Access denied (private or rate limited)".data := by
      simp [check_repo, hx, hoe, hre, hresp]
    refine ⟨by simp [check_repo, hx, hoe, hre, hresp], by simp [check_repo, hx, hoe, hre, hresp], ?_, ?_⟩
    · refine ⟨"⚠ ".data ++ o ++ "/".data ++ r ++ " - Access denied (".data,
        " or rate limited)".data, ?_⟩
      rw [hmsg]
      rw [show (" - Access denied (private or rate limited)".data : Str) =
        " - Access denied (".data ++ "private".data ++ " or rate limited)".data
        from by decide]
      simp [List.append_assoc]
    · refine ⟨"⚠ ".data ++ o ++ "/".data ++ r ++ " - Access denied (private or ".data,
        "ed)".data, ?_⟩
      rw [hmsg]
      rw [show (" - Access denied (private or rate limited)".data : Str) =
        " - Access denied (private or ".data ++ "rate limit".data ++ "ed)".data
        from by decide]
      simp [List.append_assoc]
  · intro code body hresp h200 h404 h403
    have hmsg : (check_repo http url).message =
        "? ".data ++ o ++ "/".data ++ r ++ " - HTTP ".data ++
          Nat.toDigits 10 code := by
      simp [check_repo, hx, hoe, hre, hresp, h200, h404, h403]
    refine ⟨by simp [check_repo, hx, hoe, hre, hresp, h200, h404, h403], ?_⟩
    refine ⟨"? ".data ++ o ++ "/".data ++ r ++ " - HTTP ".data, [], ?_⟩
    rw [hmsg]
    simp
  · intro msg hresp
    have hmsg : (check_repo http url).message =
        "✗ ".data ++ o ++ "/".data ++ r ++ " - Network error: ".data ++ msg := by
      simp [check_repo, hx, hoe, hre, hresp]
    refine ⟨by simp [check_repo, hx, hoe, hre, hresp], ?_⟩
    refine ⟨"✗ ".data ++ o ++ "/".data ++ r ++ " - Network error: ".data, [], ?_⟩
    rw [hmsg]
    simp

/-- Claim C1 witness: a concrete 403 probe is classified `FORBIDDEN`, not
`NOT_FOUND`, and its message mentions both possibilities. -/
theorem prober_classification_witness :
    (check_repo (fun _ => HttpOutcome.response 403 ⟨none, none, none⟩)
        "github.com/a/b".data).status = "FORBIDDEN".data ∧
    (check_repo (fun _ => HttpOutcome.response 403 ⟨none, none, none⟩)
        "github.com/a/b".data).status ≠ "NOT_FOUND".data ∧
    Mentions "private".data
      (check_repo (fun _ => HttpOutcome.response 403 ⟨none, none, none⟩)
        "github.com/a/b".data).message ∧
    Mentions "rate limit".data
      (check_repo (fun _ => HttpOutcome.response 403 ⟨none, none, none⟩)
        "github.com/a/b".data).message := by
  have h := prober_classification
    (fun _ => HttpOutcome.response 403 ⟨none, none, none⟩)
    "github.com/a/b".data "a".data "b".data (by decide) (by decide) (by decide)
  exact h.2.2.1 ⟨none, none, none⟩ rfl

/-- Claim C10: the `url` field of every `ProbeResult` is the exact input
URL for all five outcomes, and every entry of the dead-link list is one of
the input URLs verbatim. -/
theorem url_preserved (http : Str → HttpOutcome) (url : Str) :
    (check_repo http url).url = url ∧
    ∀ urls order : List Str, List.Perm order urls →
      ∀ u ∈ (aggregate (check_repos_batch http urls order).1).2, u ∈ urls := by
  constructor
  · cases hx : extract_repo_info url with
    | none => simp [check_repo, hx, invalidResult]
    | some pair =>
      obtain ⟨o, r⟩ := pair
      by_cases he : o.isEmpty || r.isEmpty
      · simp [check_repo, hx, he, invalidResult]
      · cases hh : http (apiUrl o r) with
        | response code body =>
          by_cases h200 : code = 200
          · simp [check_repo, hx, he, hh, h200]
          · by_cases h404 : code = 404
            · simp [check_repo, hx, he, hh, h200, h404]
            · by_cases h403 : code = 403
              · simp [check_repo, hx, he, hh, h200, h404, h403]
              · simp [check_repo, hx, he, hh, h200, h404, h403]
        | failure msg => simp [check_repo, hx, he, hh]
  · intro urls order hperm u hu
    rw [check_repos_batch] at hu
    rw [aggregate, aggregateAux_dead, List.nil_append] at hu
    obtain ⟨res, hres, hures⟩ := List.mem_map.mp hu
    have hres2 : res ∈ (order.map (check_repo http)) := List.mem_of_mem_filter hres
    obtain ⟨v, hv, hvres⟩ := List.mem_map.mp hres2
    have hvurl : res.url = v := by
      rw [← hvres]
      cases hx : extract_repo_info v with
      | none => simp [check_repo, hx, invalidResult]
      | some pair =>
        obtain ⟨o, r⟩ := pair
        by_cases he : o.isEmpty || r.isEmpty
        · simp [check_repo, hx, he, invalidResult]
        · cases hh : http (apiUrl o r) with
          | response code body =>
            by_cases h200 : code = 200
            · simp [check_repo, hx, he, hh, h200]
            · by_cases h404 : code = 404
              · simp [check_repo, hx, he, hh, h200, h404]
              · by_cases h403 : code = 403
                · simp [check_repo, hx, he, hh, h200, h404, h403]
                · simp [check_repo, hx, he, hh, h200, h404, h403]
          | failure msg => simp [check_repo, hx, he, hh]
    have : u = v := by rw [← hures, hvurl]
    rw [this]
    exact hperm.mem_iff.mp hv

/-- Claim C10 witness: concrete batch whose dead link is the input URL
unchanged. -/
theorem url_preserved_witness :
    (check_repo demoHttp404 "github.com/a/b".data).url = "github.com/a/b".data ∧
    "github.com/a/b".data ∈ demoUrls := by
  have h := url_preserved demoHttp404 "github.com/a/b".data
  refine ⟨h.1, ?_⟩
  have h2 := h.2 demoUrls demoUrls.reverse (by decide) "github.com/a/b".data (by decide)
  exact h2

/-- Claim C4: for a batch of K URLs the Runner produces exactly K
`ProbeResult`s and invokes the progress callback exactly K times, with
`completed_count` taking each value `1..K` exactly once in completion
order, and `total_count` always equal to K. -/
theorem batch_progress_callback (http : Str → HttpOutcome) (urls order : List Str)
    (hperm : List.Perm order urls) :
    (check_repos_batch http urls order).1.length = urls.length ∧
    (check_repos_batch http urls order).2.length = urls.length ∧
    (check_repos_batch http urls order).2.map (fun t => t.1) =
      List.range' 1 urls.length ∧
    ∀ t ∈ (check_repos_batch http urls order).2, t.2.1 = urls.length := by
  have hlen : order.length = urls.length := hperm.length_eq
  refine ⟨?_, ?_, ?_, ?_⟩
  · simp [check_repos_batch, hlen]
  · simp [check_repos_batch, List.enum_length, hlen]
  · rw [check_repos_batch]
    simp only [List.map_map]
    have hcomp : ((fun t : Nat × Nat × ProbeResult => t.1) ∘
        (fun p : Nat × ProbeResult => (p.1 + 1, urls.length, p.2))) =
        (fun p : Nat × ProbeResult => p.1 + 1) := rfl
    rw [hcomp, List.enum, enumFrom_map_fst_succ]
    simp [hlen]
  · intro t ht
    rw [check_repos_batch] at ht
    obtain ⟨p, hp, hpt⟩ := List.mem_map.mp ht
    rw [← hpt]

/-- Claim C4 witness on a two-element batch completing in reversed order. -/
theorem batch_progress_callback_witness :
    (check_repos_batch demoHttp404 demoUrls demoUrls.reverse).1.length = 2 ∧
    (check_repos_batch demoHttp404 demoUrls demoUrls.reverse).2.map
      (fun t => t.1) = [1, 2] := by
  have h := batch_progress_callback demoHttp404 demoUrls demoUrls.reverse (by decide)
  refine ⟨by rw [h.1]; decide, ?_⟩
  rw [h.2.2.1]
  decide

/-- Claim C5: a probe-internal failure (a raised `RequestException`) is
captured inside that probe's own `ProbeResult` with status `ERROR`, and
the Runner never aborts the batch: every URL of the completion order
contributes exactly its own `check_repo` result, whatever the HTTP
outcomes are. -/
theorem batch_resilience (http : Str → HttpOutcome) (urls order : List Str)
    (hperm : List.Perm order urls) :
    (check_repos_batch http urls order).1.length = urls.length ∧
    (∀ i : Nat, (check_repos_batch http urls order).1[i]? =
      order[i]?.map (check_repo http)) ∧
    (∀ url o r : Str, ∀ msg : Str,
      extract_repo_info url = some (o, r) → o ≠ [] → r ≠ [] →
      http (apiUrl o r) = HttpOutcome.failure msg →
      (check_repo http url).status = "ERROR".data ∧
      (check_repo http url).url = url ∧
      Mentions msg (check_repo http url).message) := by
  refine ⟨by simp [check_repos_batch, hperm.length_eq], ?_, ?_⟩
  · intro i
    rw [check_repos_batch]
    exact List.getElem?_map (check_repo http) order i
  · intro url o r msg hx ho hr hresp
    have hoe := isEmpty_false_of_ne_nil o ho
    have hre := isEmpty_false_of_ne_nil r hr
    have hmsg : (check_repo http url).message =
        "✗ ".data ++ o ++ "/".data ++ r ++ " - Network error: ".data ++ msg := by
      simp [check_repo, hx, hoe, hre, hresp]
    refine ⟨by simp [check_repo, hx, hoe, hre, hresp],
      by simp [check_repo, hx, hoe, hre, hresp], ?_⟩
    refine ⟨"✗ ".data ++ o ++ "/".data ++ r ++ " - Network error: ".data, [], ?_⟩
    rw [hmsg]
    simp

/-- Claim C5 witness: a batch where one probe's request fails still yields
one result per URL, and the failing probe carries status `ERROR`. -/
theorem batch_resilience_witness :
    (check_repos_batch
        (fun u => if u = apiUrl "a".data "b".data
                  then HttpOutcome.failure "timed out".data
                  else HttpOutcome.response 200 ⟨none, none, none⟩)
        demoUrls demoUrls).1.length = 2 ∧
    (check_repo
        (fun u => if u = apiUrl "a".data "b".data
                  then HttpOutcome.failure "timed out".data
                  else HttpOutcome.response 200 ⟨none, none, none⟩)
        "github.com/a/b".data).status = "ERROR".data := by
  have h := batch_resilience
    (fun u => if u = apiUrl "a".data "b".data
              then HttpOutcome.failure "timed out".data
              else HttpOutcome.response 200 ⟨none, none, none⟩)
    demoUrls demoUrls (List.Perm.refl demoUrls)
  refine ⟨by rw [h.1]; decide, ?_⟩
  have h2 := h.2.2 "github.com/a/b".data "a".data "b".data "timed out".data
    (by decide) (by decide) (by decide) (by decide)
  exact h2.1

/-- Claim C6: the Aggregator's report lists only statuses that occurred,
its counts sum to the number of results (which is the number of input
URLs for a batch), and its dead-link list is exactly the urls of the
`NOT_FOUND`/`ERROR` results in production order. -/
theorem aggregator_report (results : List ProbeResult) :
    (∀ p ∈ (aggregate results).1, ∃ r ∈ results, r.status = p.1) ∧
    ((aggregate results).1.map Prod.snd).sum = results.length ∧
    (aggregate results).2 = (results.filter isDead).map (fun r => r.url) ∧
    ∀ (http : Str → HttpOutcome) (urls order : List Str), List.Perm order urls →
      ((aggregate (check_repos_batch http urls order).1).1.map Prod.snd).sum =
        urls.length := by
  refine ⟨?_, ?_, ?_, ?_⟩
  · intro p hp
    rw [aggregate] at hp
    rcases aggregateAux_keys results [] [] p hp with ⟨q, hq, -⟩ | ⟨r, hr, hpr⟩
    · exact absurd hq (List.not_mem_nil q)
    · exact ⟨r, hr, hpr.symm⟩
  · rw [aggregate, aggregateAux_sum]
    simp [lookupCount]
  · rw [aggregate, aggregateAux_dead, List.nil_append]
  · intro http urls order hperm
    rw [check_repos_batch, aggregate, aggregateAux_sum]
    simp [hperm.length_eq]

/-- Claim C6 witness: on a concrete two-result batch the counts sum to the
batch size. -/
theorem aggregator_report_witness :
    ((aggregate (check_repos_batch demoHttp404 demoUrls demoUrls.reverse).1).1.map
      Prod.snd).sum = 2 := by
  have h := (aggregator_report
    (check_repos_batch demoHttp404 demoUrls demoUrls.reverse).1).2.2.2
    demoHttp404 demoUrls demoUrls.reverse (by decide)
  simpa using h

/-- Claim C7: `main` exits with code 1 on a missing file argument, on a
file that cannot be opened, and on a file with zero qualifying lines,
where a line qualifies exactly when it is non-empty after trimming and
contains the substring `github.com`. -/
theorem cli_exit_codes (argv : List Str) (fs : Str → Option (List Str)) :
    (argv.length < 2 →
      main_outcome argv fs = MainOutcome.usageError ∧
      outcome_exit (main_outcome argv fs) = some 1) ∧
    (2 ≤ argv.length → fs (argv.getD 1 []) = none →
      main_outcome argv fs = MainOutcome.fileError ∧
      outcome_exit (main_outcome argv fs) = some 1) ∧
    (∀ lines : List Str, 2 ≤ argv.length → fs (argv.getD 1 []) = some lines →
      (∀ l ∈ lines, qualifying l = false) →
      main_outcome argv fs = MainOutcome.noUrls ∧
      outcome_exit (main_outcome argv fs) = some 1) ∧
    (∀ line : Str, qualifying line = true ↔
      (pyStrip line ≠ [] ∧ containsStr "github.com".data line = true)) := by
  refine ⟨?_, ?_, ?_, ?_⟩
  · intro hlt
    have h : main_outcome argv fs = MainOutcome.usageError := by
      rw [main_outcome, if_pos hlt]
    exact ⟨h, by rw [h]; rfl⟩
  · intro hge hnone
    have h : main_outcome argv fs = MainOutcome.fileError := by
      rw [main_outcome, if_neg (Nat.not_lt.mpr hge), hnone]
    exact ⟨h, by rw [h]; rfl⟩
  · intro lines hge hsome hql
    have hfilter : lines.filter qualifying = [] := by
      refine List.filter_eq_nil_iff.mpr ?_
      intro l hl
      rw [hql l hl]
      exact Bool.false_ne_true
    have h : main_outcome argv fs = MainOutcome.noUrls := by
      rw [main_outcome, if_neg (Nat.not_lt.mpr hge), hsome]
      simp only [load_urls, hfilter, List.map_nil, List.isEmpty_nil, if_true]
    exact ⟨h, by rw [h]; rfl⟩
  · intro line
    rw [qualifying, Bool.and_eq_true, Bool.not_eq_true']
    constructor
    · intro ⟨h1, h2⟩
      refine ⟨?_, h2⟩
      intro hnil
      rw [hnil] at h1
      exact absurd h1 (by decide)
    · intro ⟨h1, h2⟩
      exact ⟨isEmpty_false_of_ne_nil _ h1, h2⟩

/-- Claim C7 witness: the three concrete error invocations all exit 1. -/
theorem cli_exit_codes_witness :
    main_outcome ["prog".data] (fun _ => none) = MainOutcome.usageError ∧
    main_outcome ["prog".data, "f.txt".data] (fun _ => none) =
      MainOutcome.fileError ∧
    main_outcome ["prog".data, "f.txt".data]
      (fun _ => some ["  ".data, "nope".data]) = MainOutcome.noUrls := by
  refine ⟨?_, ?_, ?_⟩
  · exact ((cli_exit_codes ["prog".data] (fun _ => none)).1 (by decide)).1
  · exact ((cli_exit_codes ["prog".data, "f.txt".data] (fun _ => none)).2.1
      (by decide) rfl).1
  · exact ((cli_exit_codes ["prog".data, "f.txt".data]
      (fun _ => some ["  ".data, "nope".data])).2.2.1
      ["  ".data, "nope".data] (by decide) rfl (by decide)).1

/-- Claim C8 counterexample: with a fixed URL list and a fixed mocked HTTP
mapping (404 everywhere), two runs whose completion orders are both
permutations of the input produce different `BatchReport`s: the dead-link
lists differ in order, so the report is not identical across re-runs. -/
theorem batch_order_changes_deadlinks :
    List.Perm demoUrls.reverse demoUrls ∧
    (aggregate (check_repos_batch demoHttp404 demoUrls demoUrls.reverse).1).2 ≠
      (aggregate (check_repos_batch demoHttp404 demoUrls demoUrls).1).2 := by
  constructor
  · decide
  · decide

/-- Claim C8 (amended): for a fixed URL list and a fixed mocked HTTP
mapping, any two completion orders yield the same per-status counts (as a
mapping) and the same dead-link list up to reordering. -/
theorem batch_report_perm_invariant (http : Str → HttpOutcome)
    (urls order1 order2 : List Str)
    (h1 : List.Perm order1 urls) (h2 : List.Perm order2 urls) :
    (∀ s : Str,
      lookupCount (aggregate (check_repos_batch http urls order1).1).1 s =
      lookupCount (aggregate (check_repos_batch http urls order2).1).1 s) ∧
    List.Perm (aggregate (check_repos_batch http urls order1).1).2
      (aggregate (check_repos_batch http urls order2).1).2 := by
  have horder : List.Perm order1 order2 := h1.trans h2.symm
  have hres : List.Perm (order1.map (check_repo http))
      (order2.map (check_repo http)) := horder.map (check_repo http)
  constructor
  · intro s
    rw [check_repos_batch, check_repos_batch, aggregate, aggregate,
      aggregateAux_lookup, aggregateAux_lookup]
    rw [hres.countP_eq (fun r => r.status == s)]
  · rw [check_repos_batch, check_repos_batch, aggregate, aggregate,
      aggregateAux_dead, aggregateAux_dead, List.nil_append, List.nil_append]
    exact (hres.filter isDead).map (fun r => r.url)

/-- Claim C8 witness: the amended statement at the concrete
counterexample inputs. -/
theorem batch_report_perm_invariant_witness :
    lookupCount
      (aggregate (check_repos_batch demoHttp404 demoUrls demoUrls.reverse).1).1
      "NOT_FOUND".data =
    lookupCount
      (aggregate (check_repos_batch demoHttp404 demoUrls demoUrls).1).1
      "NOT_FOUND".data ∧
    List.Perm
      (aggregate (check_repos_batch demoHttp404 demoUrls demoUrls.reverse).1).2
      (aggregate (check_repos_batch demoHttp404 demoUrls demoUrls).1).2 := by
  have h := batch_report_perm_invariant demoHttp404 demoUrls
    demoUrls.reverse demoUrls (by decide) (List.Perm.refl demoUrls)
  exact ⟨h.1 "NOT_FOUND".data, h.2⟩

/-- Claim C9: the Parser accepts the `github.com/<seg1>/<seg2>` shape
anywhere inside the input. First part: any string containing
`github.com/` followed by two non-empty slash-free segments parses to a
present pair. Second part: on a URL of the shape
`github.com/<seg1>/<seg2>/<more>` (extra path segments after the repo,
with no second occurrence of `github.com/`), the pair is taken from the
first two segments: the owner is `seg1` and the repo is `seg2` after the
code's `rstrip('.git')` cleanup. -/
theorem parser_substring_match :
    (∀ pre seg1 seg2 post : Str, seg1 ≠ [] → seg2 ≠ [] →
      (∀ c ∈ seg1, c ≠ '/') → (∀ c ∈ seg2, c ≠ '/') →
      (extract_repo_info
        (pre ++ ghMarker ++ (seg1 ++ '/' :: (seg2 ++ post)))).isSome = true) ∧
    (∀ seg1 seg2 rest0 : Str, seg1 ≠ [] → seg2 ≠ [] → rest0 ≠ [] →
      (∀ c ∈ seg1, c ≠ '/') → (∀ c ∈ seg2, c ≠ '/') →
      containsStr ghMarker
        (List.drop 1 (ghMarker ++ (seg1 ++ '/' :: (seg2 ++ '/' :: rest0)))) = false →
      extract_repo_info (ghMarker ++ (seg1 ++ '/' :: (seg2 ++ '/' :: rest0))) =
        some (seg1, rstripGit seg2)) := by
  constructor
  · intro pre seg1 seg2 post h1 h2 hs1 hs2
    have hm2 : (match2 (seg1 ++ '/' :: (seg2 ++ post))).isSome = true :=
      match2_at_shape seg1 seg2 post h1 h2 hs1 hs2
    have hsome2 : (search2
        (pre ++ ghMarker ++ (seg1 ++ '/' :: (seg2 ++ post)))).isSome = true :=
      searchWith_isSome_append match2 pre _ hm2
    rw [extract_repo_info]
    cases hsr1 : search1 (pre ++ ghMarker ++ (seg1 ++ '/' :: (seg2 ++ post))) with
    | some g =>
      obtain ⟨o, r⟩ := g
      rfl
    | none =>
      obtain ⟨g, hg⟩ := Option.isSome_iff_exists.mp hsome2
      rw [hg]
      obtain ⟨o, r⟩ := g
      rfl
  · intro seg1 seg2 rest0 h1 h2 h0 hs1 hs2 hnc
    have hm1 : match1 (seg1 ++ '/' :: (seg2 ++ '/' :: rest0)) = none :=
      match1_none_inner_slash seg1 seg2 rest0 h0 hs1
    have hm2 : match2 (seg1 ++ '/' :: (seg2 ++ '/' :: rest0)) = some (seg1, seg2) :=
      match2_at_exact seg1 seg2 rest0 h1 h2 hs1 hs2
    have hp : ghMarker.isPrefixOf
        (ghMarker ++ (seg1 ++ '/' :: (seg2 ++ '/' :: rest0))) = true :=
      isPrefixOf_self_append _ _
    have hdrop : (ghMarker ++ (seg1 ++ '/' :: (seg2 ++ '/' :: rest0))).drop 11 =
        seg1 ++ '/' :: (seg2 ++ '/' :: rest0) := by
      simp [ghMarker]
    have htry1 : tryAt match1 (ghMarker ++ (seg1 ++ '/' :: (seg2 ++ '/' :: rest0))) = none := by
      unfold tryAt
      rw [if_pos hp, hdrop, hm1]
    have htry2 : tryAt match2 (ghMarker ++ (seg1 ++ '/' :: (seg2 ++ '/' :: rest0))) =
        some (seg1, seg2) := by
      unfold tryAt
      rw [if_pos hp, hdrop, hm2]
    have hosplit : ghMarker ++ (seg1 ++ '/' :: (seg2 ++ '/' :: rest0)) =
        'g' :: (['i', 't', 'h', 'u', 'b', '.', 'c', 'o', 'm', '/'] ++
          (seg1 ++ '/' :: (seg2 ++ '/' :: rest0))) := by
      simp [ghMarker]
    have hdrop1 : List.drop 1 (ghMarker ++ (seg1 ++ '/' :: (seg2 ++ '/' :: rest0))) =
        ['i', 't', 'h', 'u', 'b', '.', 'c', 'o', 'm', '/'] ++
          (seg1 ++ '/' :: (seg2 ++ '/' :: rest0)) := by
      rw [hosplit]
      rfl
    have hs1none : search1 (ghMarker ++ (seg1 ++ '/' :: (seg2 ++ '/' :: rest0))) = none := by
      rw [search1, hosplit, searchWith_cons_unfold]
      have htry1b : tryAt match1 ('g' :: (['i', 't', 'h', 'u', 'b', '.', 'c', 'o', 'm', '/'] ++
          (seg1 ++ '/' :: (seg2 ++ '/' :: rest0)))) = none := by
        rw [← hosplit]
        exact htry1
      rw [htry1b]
      exact searchWith_not_contains match1 _ (by rw [← hdrop1]; exact hnc)
    have hs2some : search2 (ghMarker ++ (seg1 ++ '/' :: (seg2 ++ '/' :: rest0))) =
        some (seg1, seg2) := by
      rw [search2, hosplit]
      apply searchWith_cons_some
      rw [← hosplit]
      exact htry2
    rw [extract_repo_info, hs1none, hs2some]

/-- Claim C9 witness at the concrete URL `github.com/owner/repo/tree/main`. -/
theorem parser_substring_match_witness :
    extract_repo_info
      (ghMarker ++ ("owner".data ++ '/' :: ("repo".data ++ '/' :: "tree/main".data))) =
      some ("owner".data, rstripGit "repo".data) :=
  parser_substring_match.2 "owner".data "repo".data "tree/main".data
    (by decide) (by decide) (by decide) (by decide) (by decide) (by decide)

/-- Claim C3 witness at a concrete unparseable URL. -/
theorem probe_status_closed_witness :
    (check_repo demoHttp404 "not-a-url".data).status ∈
      ["INVALID_URL".data, "EXISTS".data, "NOT_FOUND".data,
       "FORBIDDEN".data, "ERROR".data] ∧
    check_repo demoHttp404 "not-a-url".data = invalidResult "not-a-url".data ∧
    check_repo_requests "not-a-url".data = [] := by
  have h := probe_status_closed demoHttp404 "not-a-url".data
  have h2 := h.2 (by decide)
  exact ⟨h.1, h2.1, h2.2.1⟩

